import Mathlib

/-!
Shallow embedding of the `cola` crate (src/lib.rs): a declarative
configuration loader.  The `make_conf!` macro generates, for a fixed ordered
schema of `(env key, field name, target type)` declarations, a
`Configuration` struct with

  * `Configuration::new() -> Result<Configuration, ConfigError>`, which for
    each declaration in order runs `convert::<T>(parse_env(key)?)?`, and
  * a `Default` impl whose `default()` calls `new()` and panics on error.

We embed the generated code schema-parametrically: a schema is a list of
field declarations, the produced record is the list of field values in
declaration order, the process environment is a function from variable name
to optional string value.  The Rust target types exercised by the crate's
own tests (`String`, `u32`, `i32`, `bool`) form the type universe; each
carries the parser of its `FromStr` impl.
-/

namespace Cola

/-- The process environment: a (read-only, for this library) map from
variable names to string values.  `std::env::var key` succeeds exactly when
`env key = some v`. -/
def Env : Type := String → Option String

/-- Mirrors `enum ConfigError` in src/lib.rs: `ConfigMissing` carries the
missing key, `InvalidData` carries the raw unparsable string. -/
inductive ConfigError : Type where
  | ConfigMissing : String → ConfigError
  | InvalidData : String → ConfigError
deriving DecidableEq, Repr

/-- The universe of field values for the target types the crate's tests
declare (`String`, `u32`, `i32`, `bool`). -/
inductive Value : Type where
  | vString : String → Value
  | vU32 : Nat → Value
  | vI32 : Int → Value
  | vBool : Bool → Value
deriving DecidableEq, Repr

/-- Target types admissible in a schema; each implements Rust's `FromStr`. -/
inductive Ty : Type where
  | tString : Ty
  | tU32 : Ty
  | tI32 : Ty
  | tBool : Ty
deriving DecidableEq, Repr

/-- Decimal digit value of a character, exactly as Rust's integer `FromStr`
accepts digits: ASCII `0`-`9` only. -/
def digitVal (c : Char) : Option Nat :=
  if '0' ≤ c ∧ c ≤ '9' then some (c.toNat - 48) else none

/-- Accumulating decimal evaluation of a digit string; `none` if any
character is not an ASCII digit. -/
def parseDigitsAux : Nat → List Char → Option Nat
  | acc, [] => some acc
  | acc, c :: cs =>
    match digitVal c with
    | some d => parseDigitsAux (acc * 10 + d) cs
    | none => none

/-- A nonempty all-digit string evaluated in base 10; `none` on the empty
string or any non-digit. -/
def parseDigits : List Char → Option Nat
  | [] => none
  | cs => parseDigitsAux 0 cs

/-- Rust `u32::from_str`: optional leading `+`, then one or more ASCII
digits, value below `2^32` (checked arithmetic fails on overflow). -/
def parseU32 (s : String) : Option Nat :=
  let cs :=
    match s.data with
    | '+' :: rest => rest
    | cs => cs
  match parseDigits cs with
  | some n => if n < 4294967296 then some n else none
  | none => none

/-- Rust `i32::from_str`: optional leading `+` or `-`, then one or more
ASCII digits, result within `[-2^31, 2^31 - 1]`. -/
def parseI32 (s : String) : Option Int :=
  match s.data with
  | '-' :: rest =>
    match parseDigits rest with
    | some n => if n ≤ 2147483648 then some (-(n : Int)) else none
    | none => none
  | '+' :: rest =>
    match parseDigits rest with
    | some n => if n < 2147483648 then some (n : Int) else none
    | none => none
  | cs =>
    match parseDigits cs with
    | some n => if n < 2147483648 then some (n : Int) else none
    | none => none

/-- Rust `bool::from_str`: exactly `"true"` or `"false"`. -/
def parseBool (s : String) : Option Bool :=
  if s = "true" then some true
  else if s = "false" then some false
  else none

/-- `str::parse::<T>` for each target type `T`; `String::from_str` is
infallible and returns the string unchanged. -/
def Ty.parse : Ty → String → Option Value
  | .tString, s => some (.vString s)
  | .tU32, s => (parseU32 s).map .vU32
  | .tI32, s => (parseI32 s).map .vI32
  | .tBool, s => (parseBool s).map .vBool

/-- One `"KEY" => name: T` entry of a `make_conf!` invocation. -/
structure FieldDecl : Type where
  sourceKey : String
  fieldName : String
  ty : Ty
deriving DecidableEq, Repr

/-- `pub fn parse_env(key: &str) -> Result<String, ConfigError>`:
`std::env::var(key)` mapped to `ConfigMissing(key)` on failure. -/
def parse_env (env : Env) (key : String) : Except ConfigError String :=
  match env key with
  | some v => Except.ok v
  | none => Except.error (ConfigError.ConfigMissing key)

/-- `pub fn convert<T: FromStr>(source: String) -> Result<T, ConfigError>`:
`source.parse::<T>()` mapped to `InvalidData(source)` on failure. -/
def convert (ty : Ty) (source : String) : Except ConfigError Value :=
  match ty.parse source with
  | some v => Except.ok v
  | none => Except.error (ConfigError.InvalidData source)

/-- The per-field initializer expression the macro emits inside `new()`:
`convert::<$t>(parse_env($x)?)?`. -/
def fieldResult (env : Env) (f : FieldDecl) : Except ConfigError Value :=
  match parse_env env f.sourceKey with
  | Except.ok raw => convert f.ty raw
  | Except.error e => Except.error e

/-- The body of the generated `new()`: the struct-literal initializers are
evaluated in declaration order and each `?` returns the first error. -/
def loadFields (env : Env) : List FieldDecl → Except ConfigError (List Value)
  | [] => Except.ok []
  | f :: fs =>
    match fieldResult env f with
    | Except.error e => Except.error e
    | Except.ok v =>
      match loadFields env fs with
      | Except.error e => Except.error e
      | Except.ok vs => Except.ok (v :: vs)

/-- `Configuration::new()` generated by `make_conf!` for `schema`, run
against environment `env`; the record is the list of field values in
declaration order. -/
def Configuration.new (schema : List FieldDecl) (env : Env) :
    Except ConfigError (List Value) :=
  loadFields env schema

/-- The generated `impl Default for Configuration`: `default()` matches
`new()`, returns the record on `Ok`, and panics on either error.  A panic
terminates the call without producing a record, embedded as `none`. -/
def Configuration.default (schema : List FieldDecl) (env : Env) :
    Option (List Value) :=
  match Configuration.new schema env with
  | Except.ok config => some config
  | Except.error _ => none

instance {ε α : Type} [DecidableEq ε] [DecidableEq α] :
    DecidableEq (Except ε α) := fun x y =>
  match x, y with
  | Except.ok a, Except.ok b =>
    if h : a = b then isTrue (by rw [h])
    else isFalse (by intro hc; cases hc; exact h rfl)
  | Except.error a, Except.error b =>
    if h : a = b then isTrue (by rw [h])
    else isFalse (by intro hc; cases hc; exact h rfl)
  | Except.ok _, Except.error _ => isFalse (by intro hc; cases hc)
  | Except.error _, Except.ok _ => isFalse (by intro hc; cases hc)

/-- A field initializer succeeds with `v` exactly when the key is present
and its raw value parses to `v`. -/
theorem fieldResult_ok_iff (env : Env) (f : FieldDecl) (v : Value) :
    fieldResult env f = Except.ok v ↔
      ∃ raw, env f.sourceKey = some raw ∧ f.ty.parse raw = some v := by
  cases h : env f.sourceKey with
  | none => simp [fieldResult, parse_env, h]
  | some raw =>
    cases hp : f.ty.parse raw with
    | none => simp [fieldResult, parse_env, convert, h, hp]
    | some w => simp [fieldResult, parse_env, convert, h, hp]

/-- A field initializer succeeds with `v` exactly when parsing the key's
environment value yields `v` (bind form). -/
theorem fieldResult_ok_iff_bind (env : Env) (f : FieldDecl) (v : Value) :
    fieldResult env f = Except.ok v ↔
      (env f.sourceKey).bind f.ty.parse = some v := by
  rw [fieldResult_ok_iff, Option.bind_eq_some]

/-- A field initializer fails with `e` exactly when either the key is
absent (`e` names the key) or the key's raw value does not parse (`e`
carries the raw string). -/
theorem fieldResult_error_iff (env : Env) (f : FieldDecl) (e : ConfigError) :
    fieldResult env f = Except.error e ↔
      (env f.sourceKey = none ∧ e = ConfigError.ConfigMissing f.sourceKey) ∨
      (∃ raw, env f.sourceKey = some raw ∧ f.ty.parse raw = none ∧
        e = ConfigError.InvalidData raw) := by
  cases h : env f.sourceKey with
  | none => simp [fieldResult, parse_env, h, eq_comm]
  | some raw =>
    cases hp : f.ty.parse raw with
    | none => simp [fieldResult, parse_env, convert, h, hp, eq_comm]
    | some w => simp [fieldResult, parse_env, convert, h, hp]

/-- `loadFields` succeeds with `vs` exactly when the fields succeed
pointwise with those values, in declaration order. -/
theorem loadFields_ok_iff (env : Env) (fs : List FieldDecl)
    (vs : List Value) :
    loadFields env fs = Except.ok vs ↔
      List.Forall₂ (fun f v => fieldResult env f = Except.ok v) fs vs := by
  induction fs generalizing vs with
  | nil =>
    cases vs with
    | nil => simp [loadFields]
    | cons v vs => simp [loadFields]
  | cons f fs ih =>
    constructor
    · intro h
      simp only [loadFields] at h
      cases hf : fieldResult env f with
      | error e => rw [hf] at h; exact absurd h (by simp)
      | ok v =>
        rw [hf] at h
        cases hl : loadFields env fs with
        | error e => rw [hl] at h; exact absurd h (by simp)
        | ok ws =>
          rw [hl] at h
          obtain rfl : v :: ws = vs := by simpa using h
          exact List.Forall₂.cons hf ((ih ws).mp hl)
    · intro h
      cases h with
      | cons h1 h2 => simp [loadFields, h1, (ih _).mpr h2]

/-- If `loadFields` fails with `e`, some declared field's initializer
failed with exactly `e`. -/
theorem loadFields_error_mem (env : Env) (fs : List FieldDecl)
    (e : ConfigError) (h : loadFields env fs = Except.error e) :
    ∃ f ∈ fs, fieldResult env f = Except.error e := by
  induction fs with
  | nil => simp [loadFields] at h
  | cons f fs ih =>
    simp only [loadFields] at h
    cases hf : fieldResult env f with
    | error e' =>
      rw [hf] at h
      obtain rfl : e' = e := by simpa using h
      exact ⟨f, List.mem_cons_self f fs, hf⟩
    | ok v =>
      rw [hf] at h
      cases hl : loadFields env fs with
      | error e' =>
        rw [hl] at h
        obtain rfl : e' = e := by simpa using h
        obtain ⟨g, hg, hge⟩ := ih hl
        exact ⟨g, List.mem_cons_of_mem f hg, hge⟩
      | ok vs => rw [hl] at h; exact absurd h (by simp)

/-- If every field before `f` succeeds and `f` fails with `e`, the whole
load fails with `e`, whatever fields follow `f`. -/
theorem loadFields_prefix_error (env : Env) (fs₁ : List FieldDecl)
    (f : FieldDecl) (fs₂ : List FieldDecl) (e : ConfigError)
    (hok : ∀ g ∈ fs₁, (fieldResult env g).isOk = true)
    (hf : fieldResult env f = Except.error e) :
    loadFields env (fs₁ ++ f :: fs₂) = Except.error e := by
  induction fs₁ with
  | nil => simp [loadFields, hf]
  | cons g gs ih =>
    have hg : (fieldResult env g).isOk = true :=
      hok g (List.mem_cons_self g gs)
    cases hgr : fieldResult env g with
    | error e' => rw [hgr] at hg; simp [Except.isOk, Except.toBool] at hg
    | ok v =>
      have hrest := ih (fun g' hg' => hok g' (List.mem_cons_of_mem g hg'))
      simp [loadFields, hgr, hrest]

/-- If every declared field's initializer succeeds, the whole load
succeeds, with the pointwise field values. -/
theorem loadFields_ok_of_forall (env : Env) (fs : List FieldDecl)
    (h : ∀ f ∈ fs, ∃ v, fieldResult env f = Except.ok v) :
    ∃ vs, loadFields env fs = Except.ok vs ∧
      List.Forall₂ (fun f v => fieldResult env f = Except.ok v) fs vs := by
  induction fs with
  | nil => exact ⟨[], rfl, List.Forall₂.nil⟩
  | cons f fs ih =>
    obtain ⟨v, hv⟩ := h f (List.mem_cons_self f fs)
    obtain ⟨vs, hvs, hall⟩ := ih (fun g hg => h g (List.mem_cons_of_mem f hg))
    exact ⟨v :: vs, by simp [loadFields, hv, hvs], List.Forall₂.cons hv hall⟩

/-- From a pointwise `Forall₂` relation, every left element is related to
some right element. -/
theorem forall₂_exists_right {α β : Type} {R : α → β → Prop} :
    ∀ {l₁ : List α} {l₂ : List β}, List.Forall₂ R l₁ l₂ →
      ∀ a ∈ l₁, ∃ b, R a b := by
  intro l₁ l₂ h
  induction h with
  | nil => intro a ha; cases ha
  | cons h1 _ ih =>
    intro a ha
    rcases List.mem_cons.mp ha with rfl | ha'
    · exact ⟨_, h1⟩
    · exact ih a ha'

/-- Claim C1: for every schema and every environment in which each
declared source key is present and its value parses to the declared target
type, the generated `new()` returns success, and every member of the
returned record equals the value obtained by parsing its corresponding
environment variable's raw string into the member's declared type — also
when the same key is declared under two different field names/types, each
field being parsed independently from the same raw string (the schema may
repeat keys freely). -/
theorem new_complete (schema : List FieldDecl) (env : Env)
    (h : ∀ f ∈ schema, ((env f.sourceKey).bind f.ty.parse).isSome = true) :
    ∃ vs, Configuration.new schema env = Except.ok vs ∧
      List.Forall₂ (fun f v => (env f.sourceKey).bind f.ty.parse = some v)
        schema vs := by
  have hall : ∀ f ∈ schema, ∃ v, fieldResult env f = Except.ok v := by
    intro f hf
    obtain ⟨v, hv⟩ := Option.isSome_iff_exists.mp (h f hf)
    exact ⟨v, (fieldResult_ok_iff_bind env f v).mpr hv⟩
  obtain ⟨vs, hvs, hrel⟩ := loadFields_ok_of_forall env schema hall
  refine ⟨vs, hvs, ?_⟩
  exact hrel.imp (fun a b hfv => (fieldResult_ok_iff_bind env a b).mp hfv)

/-- Witness for C1, on the crate's scenario of one key declared under two
field names/types: `N=1` loaded both as a `u32` field and a `String`
field. -/
theorem new_complete_witness :
    ∃ vs, Configuration.new
        [⟨"N", "n_int", Ty.tU32⟩, ⟨"N", "n_str", Ty.tString⟩]
        (fun k => if k = "N" then some "1" else none) = Except.ok vs ∧
      List.Forall₂
        (fun (f : FieldDecl) (v : Value) =>
          ((fun k => if k = "N" then some "1" else none : Env)
              f.sourceKey).bind f.ty.parse = some v)
        ([⟨"N", "n_int", Ty.tU32⟩, ⟨"N", "n_str", Ty.tString⟩] :
          List FieldDecl) vs :=
  new_complete [⟨"N", "n_int", Ty.tU32⟩, ⟨"N", "n_str", Ty.tString⟩]
    (fun k => if k = "N" then some "1" else none) (by decide)

/-- Claim C2 counterexample: in the schema `[A: bool, B: String]` with
environment `A=potato` and `B` unset, the declared key `B` is absent, yet
`new()` returns `InvalidData "potato"` (the earlier field fails first),
not `ConfigMissing "B"`. -/
theorem new_missing_cex :
    ((fun k => if k = "A" then some "potato" else none : Env) "B" = none) ∧
    "B" ∈ List.map FieldDecl.sourceKey
        [⟨"A", "a", Ty.tBool⟩, ⟨"B", "b", Ty.tString⟩] ∧
    Configuration.new [⟨"A", "a", Ty.tBool⟩, ⟨"B", "b", Ty.tString⟩]
        (fun k => if k = "A" then some "potato" else none) =
      Except.error (ConfigError.InvalidData "potato") ∧
    Configuration.new [⟨"A", "a", Ty.tBool⟩, ⟨"B", "b", Ty.tString⟩]
        (fun k => if k = "A" then some "potato" else none) ≠
      Except.error (ConfigError.ConfigMissing "B") := by decide

/-- Claim C2 (amended): if a declared field's source key is absent from
the environment and every field declared before it loads successfully,
then `new()` returns `ConfigMissing` carrying exactly that key's name; in
particular, when several keys are missing (and all fields before the first
missing one succeed) the first missing key in declaration order is
reported. -/
theorem new_missing_first (env : Env) (fs₁ : List FieldDecl)
    (f : FieldDecl) (fs₂ : List FieldDecl)
    (hok : ∀ g ∈ fs₁, (fieldResult env g).isOk = true)
    (hmiss : env f.sourceKey = none) :
    Configuration.new (fs₁ ++ f :: fs₂) env =
      Except.error (ConfigError.ConfigMissing f.sourceKey) := by
  have hf : fieldResult env f =
      Except.error (ConfigError.ConfigMissing f.sourceKey) := by
    simp [fieldResult, parse_env, hmiss]
  exact loadFields_prefix_error env fs₁ f fs₂ _ hok hf

/-- Witness for amended C2: schema `[A: String, B: u32, C: bool]` with
only `A` set; both `B` and `C` are missing and the first, `B`, is
reported. -/
theorem new_missing_first_witness :
    Configuration.new
        ([⟨"A", "a", Ty.tString⟩] ++
          ⟨"B", "b", Ty.tU32⟩ :: [⟨"C", "c", Ty.tBool⟩])
        (fun k => if k = "A" then some "x" else none) =
      Except.error (ConfigError.ConfigMissing "B") :=
  new_missing_first (fun k => if k = "A" then some "x" else none)
    [⟨"A", "a", Ty.tString⟩] ⟨"B", "b", Ty.tU32⟩ [⟨"C", "c", Ty.tBool⟩]
    (by decide) (by decide)

/-- Claim C3 counterexample: in the schema `[A: String, B: bool]` with `A`
unset and `B=potato`, the declared key `B` is present with an unparsable
value, yet `new()` returns `ConfigMissing "A"` (the earlier field fails
first), not `InvalidData "potato"`. -/
theorem new_invalid_cex :
    ((fun k => if k = "B" then some "potato" else none : Env) "B" =
      some "potato") ∧
    Ty.parse Ty.tBool "potato" = none ∧
    Configuration.new [⟨"A", "a", Ty.tString⟩, ⟨"B", "b", Ty.tBool⟩]
        (fun k => if k = "B" then some "potato" else none) =
      Except.error (ConfigError.ConfigMissing "A") ∧
    Configuration.new [⟨"A", "a", Ty.tString⟩, ⟨"B", "b", Ty.tBool⟩]
        (fun k => if k = "B" then some "potato" else none) ≠
      Except.error (ConfigError.InvalidData "potato") := by decide

/-- Claim C3 (amended): if a declared field's source key is present but
its raw string does not parse to the field's target type, and every field
declared before it loads successfully, then `new()` returns `InvalidData`
carrying exactly the raw offending string (not the key name). -/
theorem new_invalid_first (env : Env) (fs₁ : List FieldDecl)
    (f : FieldDecl) (fs₂ : List FieldDecl) (raw : String)
    (hok : ∀ g ∈ fs₁, (fieldResult env g).isOk = true)
    (hraw : env f.sourceKey = some raw)
    (hbad : f.ty.parse raw = none) :
    Configuration.new (fs₁ ++ f :: fs₂) env =
      Except.error (ConfigError.InvalidData raw) := by
  have hf : fieldResult env f =
      Except.error (ConfigError.InvalidData raw) := by
    simp [fieldResult, parse_env, convert, hraw, hbad]
  exact loadFields_prefix_error env fs₁ f fs₂ _ hok hf

/-- Witness for amended C3, on the crate's own test scenario: `FLAG=potato`
declared as a `bool` field yields `InvalidData "potato"`. -/
theorem new_invalid_first_witness :
    Configuration.new ([] ++ ⟨"FLAG", "flag", Ty.tBool⟩ :: [])
        (fun k => if k = "FLAG" then some "potato" else none) =
      Except.error (ConfigError.InvalidData "potato") :=
  new_invalid_first (fun k => if k = "FLAG" then some "potato" else none)
    [] ⟨"FLAG", "flag", Ty.tBool⟩ [] "potato"
    (by decide) (by decide) (by decide)

/-- Claim C4: for every schema and environment, the generated `default()`
either returns exactly the record `new()` returns on the same environment
(`some r` exactly when `new` returns `Ok r`), or terminates the process
(`none`, the embedding of the panic); whenever `new()` returns an error it
never returns a record. -/
theorem default_refines_new (schema : List FieldDecl) (env : Env) :
    (∀ r, Configuration.default schema env = some r ↔
      Configuration.new schema env = Except.ok r) ∧
    (∀ e, Configuration.new schema env = Except.error e →
      Configuration.default schema env = none) := by
  constructor
  · intro r
    cases h : Configuration.new schema env with
    | ok c => simp [Configuration.default, h]
    | error e => simp [Configuration.default, h]
  · intro e he
    simp [Configuration.default, he]

/-- Witness for C4: with `NAME=Brad`, `AGE=20`, `default()` returns the
very record `new()` returns. -/
theorem default_refines_new_witness :
    Configuration.default
        [⟨"NAME", "name", Ty.tString⟩, ⟨"AGE", "age", Ty.tU32⟩]
        (fun k =>
          if k = "NAME" then some "Brad"
          else if k = "AGE" then some "20" else none) =
      some [Value.vString "Brad", Value.vU32 20] :=
  ((default_refines_new
      [⟨"NAME", "name", Ty.tString⟩, ⟨"AGE", "age", Ty.tU32⟩]
      (fun k =>
        if k = "NAME" then some "Brad"
        else if k = "AGE" then some "20" else none)).1
    [Value.vString "Brad", Value.vU32 20]).mpr (by decide)

/-- Claim C5: `new()` processes fields strictly in declaration order and
short-circuits at the first failing field: with all fields before `f`
succeeding and `f` failing, the result is the error of `f` itself —
`ConfigMissing` of its key when the key is absent, `InvalidData` of the raw
string when the value does not parse — and it is unchanged under arbitrary
replacement of the fields after `f`, so no later field influences the
outcome and the error is attributed to the earliest failing field. -/
theorem new_short_circuit (env : Env) (fs₁ : List FieldDecl)
    (f : FieldDecl)
    (hok : ∀ g ∈ fs₁, (fieldResult env g).isOk = true)
    (hfail : (fieldResult env f).isOk = false) :
    ∃ e, fieldResult env f = Except.error e ∧
      (env f.sourceKey = none → e = ConfigError.ConfigMissing f.sourceKey) ∧
      (∀ raw, env f.sourceKey = some raw →
        e = ConfigError.InvalidData raw) ∧
      ∀ fs₂ : List FieldDecl,
        Configuration.new (fs₁ ++ f :: fs₂) env = Except.error e := by
  cases hf : fieldResult env f with
  | ok v => rw [hf] at hfail; simp [Except.isOk, Except.toBool] at hfail
  | error e =>
    refine ⟨e, rfl, ?_, ?_, ?_⟩
    · intro hmiss
      rcases (fieldResult_error_iff env f e).mp hf with ⟨_, he⟩ | ⟨raw, hr, _, _⟩
      · exact he
      · rw [hmiss] at hr; cases hr
    · intro raw hr
      rcases (fieldResult_error_iff env f e).mp hf with ⟨hnone, _⟩ | ⟨raw', hr', _, he⟩
      · rw [hr] at hnone; cases hnone
      · rw [hr] at hr'
        obtain rfl : raw = raw' := by simpa using hr'
        exact he
    · intro fs₂
      exact loadFields_prefix_error env fs₁ f fs₂ e hok hf

/-- Witness for C5: schema prefix `[A: String]` succeeds, field `B: u32`
holds the unparsable `x`; the load fails with `InvalidData "x"`. -/
theorem new_short_circuit_witness :
    ∃ e, fieldResult
        (fun k =>
          if k = "A" then some "a" else if k = "B" then some "x" else none)
        ⟨"B", "b", Ty.tU32⟩ = Except.error e ∧
      ((fun k =>
          if k = "A" then some "a" else if k = "B" then some "x" else none :
        Env) "B" = none → e = ConfigError.ConfigMissing "B") ∧
      (∀ raw,
        (fun k =>
          if k = "A" then some "a" else if k = "B" then some "x" else none :
          Env) "B" = some raw → e = ConfigError.InvalidData raw) ∧
      ∀ fs₂ : List FieldDecl,
        Configuration.new ([⟨"A", "a", Ty.tString⟩] ++
            ⟨"B", "b", Ty.tU32⟩ :: fs₂)
          (fun k =>
            if k = "A" then some "a"
            else if k = "B" then some "x" else none) = Except.error e :=
  new_short_circuit
    (fun k =>
      if k = "A" then some "a" else if k = "B" then some "x" else none)
    [⟨"A", "a", Ty.tString⟩] ⟨"B", "b", Ty.tU32⟩ (by decide) (by decide)

/-- Claim C6: no partial record is ever exposed: `new()` returns a record
only when every declared field loaded and parsed successfully (and the
record then consists exactly of the per-field values, one per
declaration); `default()` only exposes records `new()` returned; and when
any declared field fails, `new()` returns an error and no record. -/
theorem new_whole_record_only (schema : List FieldDecl) (env : Env) :
    (∀ vs, Configuration.new schema env = Except.ok vs →
      vs.length = schema.length ∧
      ∀ f ∈ schema, ∃ v, fieldResult env f = Except.ok v) ∧
    (∀ vs, Configuration.default schema env = some vs →
      Configuration.new schema env = Except.ok vs) ∧
    (∀ f ∈ schema, (fieldResult env f).isOk = false →
      ∃ e, Configuration.new schema env = Except.error e) := by
  refine ⟨?_, ?_, ?_⟩
  · intro vs hvs
    have hrel := (loadFields_ok_iff env schema vs).mp hvs
    exact ⟨hrel.length_eq.symm, forall₂_exists_right hrel⟩
  · intro vs hvs
    cases h : Configuration.new schema env with
    | ok c =>
      rw [show Configuration.default schema env = some c by
        simp [Configuration.default, h]] at hvs
      obtain rfl : c = vs := by simpa using hvs
      rfl
    | error e =>
      rw [show Configuration.default schema env = none by
        simp [Configuration.default, h]] at hvs
      cases hvs
  · intro f hf hbad
    cases h : Configuration.new schema env with
    | error e => exact ⟨e, rfl⟩
    | ok vs =>
      have hrel := (loadFields_ok_iff env schema vs).mp h
      obtain ⟨v, hv⟩ := forall₂_exists_right hrel f hf
      rw [hv] at hbad
      simp [Except.isOk, Except.toBool] at hbad

/-- Witness for C6: from the successful load of `[NAME: String]` with
`NAME=Brad`, every declared field loaded successfully. -/
theorem new_whole_record_only_witness :
    [Value.vString "Brad"].length =
      List.length ([⟨"NAME", "name", Ty.tString⟩] : List FieldDecl) ∧
    ∀ f ∈ ([⟨"NAME", "name", Ty.tString⟩] : List FieldDecl), ∃ v,
      fieldResult (fun k => if k = "NAME" then some "Brad" else none) f =
        Except.ok v :=
  (new_whole_record_only [⟨"NAME", "name", Ty.tString⟩]
    (fun k => if k = "NAME" then some "Brad" else none)).1
    [Value.vString "Brad"] (by decide)

/-- Claim C7: `ConfigMissing` means exactly that the named variable is not
set: `parse_env` returns `ConfigMissing k` iff the looked-up key is `k`
and the environment has no value for it, and whenever `new()` returns
`ConfigMissing k`, the variable `k` is unset in the environment (so the
error is never produced for a key present with a value) and `k` is one of
the schema's declared source keys. -/
theorem configMissing_iff_absent (env : Env) :
    (∀ key k, parse_env env key =
        Except.error (ConfigError.ConfigMissing k) ↔
      (env key = none ∧ k = key)) ∧
    (∀ (schema : List FieldDecl) k,
      Configuration.new schema env =
          Except.error (ConfigError.ConfigMissing k) →
      env k = none ∧ k ∈ List.map FieldDecl.sourceKey schema) := by
  constructor
  · intro key k
    cases h : env key with
    | none => simp [parse_env, h, eq_comm]
    | some v => simp [parse_env, h]
  · intro schema k hnew
    obtain ⟨f, hf, hfe⟩ := loadFields_error_mem env schema _ hnew
    rcases (fieldResult_error_iff env f _).mp hfe with
      ⟨hnone, he⟩ | ⟨raw, _, _, he⟩
    · obtain rfl : k = f.sourceKey := by simpa using he
      exact ⟨hnone, List.mem_map_of_mem FieldDecl.sourceKey hf⟩
    · cases he

/-- Witness for C7: from `new()` returning `ConfigMissing "B"` on the
schema `[B: u32]` under the empty environment, `B` is unset and declared. -/
theorem configMissing_iff_absent_witness :
    (fun _ => none : Env) "B" = none ∧
    "B" ∈ List.map FieldDecl.sourceKey
      ([⟨"B", "b", Ty.tU32⟩] : List FieldDecl) :=
  (configMissing_iff_absent (fun _ => none)).2
    [⟨"B", "b", Ty.tU32⟩] "B" (by decide)

/-- Claim C8: `new()` keeps no state between calls — its result is a
deterministic function of the environment contents at the time of the
call: two runs over pointwise-equal environments yield equal results (and
hence, when the environment is mutated between two calls, each call's
result is exactly the one determined by its own environment). -/
theorem new_no_caching (schema : List FieldDecl) (env₁ env₂ : Env)
    (h : ∀ k, env₁ k = env₂ k) :
    Configuration.new schema env₁ = Configuration.new schema env₂ := by
  have he : env₁ = env₂ := funext h
  rw [he]

/-- Witness for C8: two pointwise-equal environments give the same
record. -/
theorem new_no_caching_witness :
    Configuration.new [⟨"K", "k", Ty.tU32⟩]
        (fun k => if k = "K" then some "7" else none) =
      Configuration.new [⟨"K", "k", Ty.tU32⟩]
        (fun k => if "K" = k then some "7" else none) :=
  new_no_caching [⟨"K", "k", Ty.tU32⟩]
    (fun k => if k = "K" then some "7" else none)
    (fun k => if "K" = k then some "7" else none)
    (fun k => by by_cases h : k = "K" <;> simp [h, eq_comm])

/-- State-threaded form of `parse_env`, making the environment effect of
the call explicit: `std::env::var(key)` only reads the environment table,
so it returns the looked-up result together with the table unchanged. -/
def parse_envSt (key : String) (env : Env) :
    Except ConfigError String × Env :=
  (parse_env env key, env)

/-- State-threaded form of `convert`: `source.parse::<T>()` performs no
environment access at all, so it returns its pure result with the table
unchanged. -/
def convertSt (ty : Ty) (source : String) (env : Env) :
    Except ConfigError Value × Env :=
  (convert ty source, env)

/-- The body of the generated `new()` with the process environment
threaded through every primitive call in evaluation order, so that the
net effect of a load on the environment is observable. -/
def loadFieldsSt : List FieldDecl → Env → Except ConfigError (List Value) × Env
  | [], env => (Except.ok [], env)
  | f :: fs, env =>
    match parse_envSt f.sourceKey env with
    | (Except.error e, env') => (Except.error e, env')
    | (Except.ok raw, env') =>
      match convertSt f.ty raw env' with
      | (Except.error e, env'') => (Except.error e, env'')
      | (Except.ok v, env'') =>
        match loadFieldsSt fs env'' with
        | (Except.error e, env''') => (Except.error e, env''')
        | (Except.ok vs, env''') => (Except.ok (v :: vs), env''')

/-- `Configuration::new()` in the state-threaded presentation. -/
def Configuration.newSt (schema : List FieldDecl) (env : Env) :
    Except ConfigError (List Value) × Env :=
  loadFieldsSt schema env

/-- The state-threaded load leaves the environment untouched and computes
the same result as the plain presentation. -/
theorem loadFieldsSt_eq (fs : List FieldDecl) (env : Env) :
    loadFieldsSt fs env = (loadFields env fs, env) := by
  induction fs with
  | nil => rfl
  | cons f fs ih =>
    cases hp : parse_env env f.sourceKey with
    | error e =>
      simp [loadFieldsSt, loadFields, fieldResult, parse_envSt, hp]
    | ok raw =>
      cases hc : convert f.ty raw with
      | error e =>
        simp [loadFieldsSt, loadFields, fieldResult, parse_envSt,
          convertSt, hp, hc]
      | ok v =>
        cases hl : loadFields env fs with
        | error e =>
          simp [loadFieldsSt, loadFields, fieldResult, parse_envSt,
            convertSt, hp, hc, ih, hl]
        | ok vs =>
          simp [loadFieldsSt, loadFields, fieldResult, parse_envSt,
            convertSt, hp, hc, ih, hl]

/-- Claim C9: `new()` (and the `parse_env` and `convert` calls it is built
from) only reads the process environment and never writes it: for every
schema and starting environment the environment after the call equals the
environment before it, while the call computes exactly `new()`'s result. -/
theorem new_reads_only (schema : List FieldDecl) (env : Env) :
    (Configuration.newSt schema env).2 = env ∧
    (Configuration.newSt schema env).1 = Configuration.new schema env := by
  constructor
  · rw [Configuration.newSt, loadFieldsSt_eq]
  · rw [Configuration.newSt, loadFieldsSt_eq]; rfl

/-- Claim C10: conversion to `String` never fails: `convert` at type
`String` returns the raw environment string unchanged for every input, a
`String`-typed field never produces `InvalidData`, and a schema consisting
only of `String` fields whose keys are all present always loads
successfully. -/
theorem string_fields_never_fail :
    (∀ raw, convert Ty.tString raw = Except.ok (Value.vString raw)) ∧
    (∀ (env : Env) (f : FieldDecl), f.ty = Ty.tString →
      ∀ raw, fieldResult env f ≠
        Except.error (ConfigError.InvalidData raw)) ∧
    (∀ (schema : List FieldDecl) (env : Env),
      (∀ f ∈ schema, f.ty = Ty.tString) →
      (∀ f ∈ schema, (env f.sourceKey).isSome = true) →
      ∃ vs, Configuration.new schema env = Except.ok vs) := by
  refine ⟨fun raw => rfl, ?_, ?_⟩
  · intro env f hty raw hbad
    rcases (fieldResult_error_iff env f _).mp hbad with
      ⟨_, he⟩ | ⟨raw', _, hp, _⟩
    · cases he
    · rw [hty] at hp
      cases hp
  · intro schema env hty hpres
    have hall : ∀ f ∈ schema, ∃ v, fieldResult env f = Except.ok v := by
      intro f hf
      obtain ⟨raw, hraw⟩ := Option.isSome_iff_exists.mp (hpres f hf)
      refine ⟨Value.vString raw, ?_⟩
      rw [fieldResult_ok_iff]
      exact ⟨raw, hraw, by rw [hty f hf]; rfl⟩
    obtain ⟨vs, hvs, _⟩ := loadFields_ok_of_forall env schema hall
    exact ⟨vs, hvs⟩

/-- Witness for C10: the all-`String` schema `[S: String]` with `S=hello`
loads successfully. -/
theorem string_fields_never_fail_witness :
    ∃ vs, Configuration.new [⟨"S", "s", Ty.tString⟩]
        (fun k => if k = "S" then some "hello" else none) =
      Except.ok vs :=
  string_fields_never_fail.2.2 [⟨"S", "s", Ty.tString⟩]
    (fun k => if k = "S" then some "hello" else none)
    (by decide) (by decide)

end Cola
